import Mathlib

/-!
Shallow embedding of the template-rendering core of NyanTest4SQL
(src/main.go): the condition evaluator `evalCondFlexible`, the renderer
`renderNyanSQL` with its four regex passes and whitespace normalization,
the canonical comparator `normalizeForCompare` / `stripComments`, and the
parameter-inference functions `extractParamDefaults` and
`findTruthyKeysForVariants`.

Modeling conventions:
- Go strings are modeled as `List Char` internally, with `String` wrappers
  bearing the source names.
- `float64` values are modeled as exact decimal rationals; the formatting
  functions (`strconv.FormatFloat` with precision -1) are modeled as exact
  shortest decimal expansion, which agrees with Go on every value whose
  shortest round-trip form is the carried decimal (all values used here).
- A Go runtime panic is modeled as `Option.none`; the condition evaluator
  and hence the renderer return `Option` because `evalCondFlexible`
  contains a slicing operation that can go out of bounds.
- The sequential regex substitution passes are modeled as deterministic
  left-to-right scanners, which agrees with RE2 leftmost-first matching
  because every pattern in the source is deterministic (argued at each
  scanner definition).
-/

namespace Nyan

/-- Decoded parameter values as they occur in the Go program: `nil`,
`bool`, `int64` (from default extraction and rhs parsing), `float64`
(modeled as an exact decimal rational), `string`, and
`encoding/json.Number` (carried as its raw string). -/
inductive Value where
  | null : Value
  | bool (b : Bool) : Value
  | int (n : Int) : Value
  | float (q : ℚ) : Value
  | str (s : String) : Value
  | num (s : String) : Value
deriving DecidableEq

/-- A parameter set: `map[string]any` modeled as an association list with
first-match lookup (Go maps have unique keys, so this is faithful). -/
abbrev Params := List (String × Value)

/-- Go regexp (RE2) character class `\s`, i.e. `[\t\n\f\r ]`. -/
def isRe2Ws (c : Char) : Bool :=
  c == ' ' || c == '\t' || c == '\n' || c == '\x0c' || c == '\r'

/-- Go `unicode.IsSpace`, used by `strings.TrimSpace` and `strings.Fields`. -/
def goIsSpace (c : Char) : Bool :=
  c == ' ' || c == '\t' || c == '\n' || c == '\x0b' || c == '\x0c' || c == '\r' ||
  c == '\x85' || c == '\xa0' || c == ' ' ||
  (decide (' ' ≤ c) && decide (c ≤ ' ')) ||
  c == ' ' || c == ' ' || c == ' ' || c == ' ' || c == '　'

/-- Regex class `[A-Za-z0-9_]` (placeholder and key names). -/
def isWordChar (c : Char) : Bool := c.isAlphanum || c == '_'

/-- Regex class `[A-Za-z_]` (first char of an identifier word). -/
def isIdentStart (c : Char) : Bool := c.isAlpha || c == '_'

/-- Regex class `[0-9.+-]` (bare numeric default literals in `reParam`). -/
def isNumLitChar (c : Char) : Bool := c.isDigit || c == '.' || c == '+' || c == '-'

/-- Go `strings.TrimSpace` on char lists. -/
def goTrimL (l : List Char) : List Char :=
  ((l.dropWhile goIsSpace).reverse.dropWhile goIsSpace).reverse

/-- Go `strings.TrimSpace`. -/
def goTrimSpace (s : String) : String := String.mk (goTrimL s.data)

/-- Go `strings.ContainsAny`: does `l` contain any char of `cut`? -/
def containsAnyL (l cut : List Char) : Bool := l.any (fun c => cut.contains c)

/-- Go `strings.Contains` (substring test). -/
def containsSub (pat : List Char) : List Char → Bool
  | [] => pat.isEmpty
  | c :: cs => pat.isPrefixOf (c :: cs) || containsSub pat cs

/-- Go `strings.SplitN(s, sep, 2)` when `sep` occurs: splits at the first
occurrence. `none` when `sep` does not occur (Go would return a 1-element
slice, which every caller guards on). -/
def splitFirstSub (pat : List Char) : List Char → Option (List Char × List Char)
  | [] => if pat.isEmpty then some ([], []) else none
  | c :: cs =>
    if pat.isPrefixOf (c :: cs) then some ([], (c :: cs).drop pat.length)
    else (splitFirstSub pat cs).map (fun pr => (c :: pr.1, pr.2))

/-- Go `strings.EqualFold`, restricted to ASCII case folding (the program
only compares against the ASCII literals null/true/false). -/
def eqFold (a b : List Char) : Bool :=
  a.map Char.toLower == b.map Char.toLower

/-- Go `strings.ReplaceAll` for a two-char pattern `[x, y]` replaced by the
single char `[z]`: non-overlapping, left to right, no rescan of output. -/
def repPair (x y z : Char) : List Char → List Char
  | [] => []
  | [c] => [c]
  | a :: b :: rest =>
    if a = x ∧ b = y then z :: repPair x y z rest
    else a :: repPair x y z (b :: rest)

/-- Go `strings.ReplaceAll` for a one-char pattern `[q]` replaced by the
two chars `[q, q]` (quote doubling in `quoteByDefault`). -/
def dupChar (q : Char) : List Char → List Char
  | [] => []
  | c :: cs => if c = q then q :: q :: dupChar q cs else c :: dupChar q cs

/-- Decimal digit char. -/
def digitChar (n : Nat) : Char := Char.ofNat (48 + n)

/-- Decimal digits of a natural number (fueled so evaluation reduces in the
kernel; fuel 40 covers every value producible from an int64 or used here). -/
def natStrF : Nat → Nat → List Char
  | 0, _ => []
  | f + 1, n => if n < 10 then [digitChar n] else natStrF f (n / 10) ++ [digitChar (n % 10)]

/-- Go `strconv.FormatInt(i, 10)` (also `fmt.Sprintf` of an integer). -/
def intStr (i : Int) : List Char :=
  if i < 0 then '-' :: natStrF 40 i.natAbs else natStrF 40 i.natAbs

/-- Digits-only string to Nat (base 10); `none` if empty or a non-digit occurs. -/
def digitsToNat : List Char → Option Nat
  | [] => none
  | l => l.foldl (fun acc c => match acc with
      | none => none
      | some n => if c.isDigit then some (n * 10 + (c.toNat - 48)) else none)
      (some 0)

/-- Go `strconv.ParseInt(s, 10, 64)`: optional sign, non-empty digits,
int64 range check. Out-of-range or malformed input returns an error in Go,
which every call site treats as "no integer"; modeled as `none`. -/
def goParseInt (l : List Char) : Option Int :=
  let core : List Char → Bool → Option Int := fun ds neg =>
    match digitsToNat ds with
    | none => none
    | some n =>
      let v : Int := if neg then -(n : Int) else (n : Int)
      if -(2 ^ 63) ≤ v ∧ v ≤ 2 ^ 63 - 1 then some v else none
  match l with
  | '+' :: rest => core rest false
  | '-' :: rest => core rest true
  | rest => core rest false

/-- Decimal mantissa/exponent accumulation for `goParseFloat`. -/
def parseDecCore (l : List Char) : Option (ℚ × List Char) :=
  let intDigits := l.takeWhile Char.isDigit
  let l1 := l.dropWhile Char.isDigit
  match l1 with
  | '.' :: l2 =>
    let fracDigits := l2.takeWhile Char.isDigit
    let l3 := l2.dropWhile Char.isDigit
    if intDigits.isEmpty ∧ fracDigits.isEmpty then none
    else
      match digitsToNat (intDigits ++ fracDigits) with
      | none =>
        if intDigits.isEmpty then
          match digitsToNat fracDigits with
          | none => none
          | some m => some ((m : ℚ) / (10 : ℚ) ^ fracDigits.length, l3)
        else none
      | some m => some ((m : ℚ) / (10 : ℚ) ^ fracDigits.length, l3)
  | _ =>
    if intDigits.isEmpty then none
    else match digitsToNat intDigits with
      | none => none
      | some m => some ((m : ℚ), l1)

/-- Go `strconv.ParseFloat(s, 64)`, modeled on the decimal fragment of its
grammar: optional sign, digits with optional fraction, optional exponent.
The result is the exact decimal rational (Go rounds to the nearest
float64; the decimal idealization is the documented model of float64
here). Inputs Go would also accept but that produce non-finite or
binary-rounded exotica (inf/nan, hex floats, underscores, out-of-range
magnitudes) are modeled as `none`. -/
def goParseFloat (l : List Char) : Option ℚ :=
  let signed : List Char → Option (Bool × List Char) := fun l =>
    match l with
    | '+' :: rest => some (false, rest)
    | '-' :: rest => some (true, rest)
    | rest => some (false, rest)
  match signed l with
  | none => none
  | some (neg, l1) =>
    match parseDecCore l1 with
    | none => none
    | some (m, l2) =>
      let withExp : Option ℚ :=
        match l2 with
        | [] => some m
        | e :: l3 =>
          if e == 'e' || e == 'E' then
            let (eneg, l4) :=
              match l3 with
              | '+' :: r => (false, r)
              | '-' :: r => (true, r)
              | r => (false, r)
            if l4.isEmpty ∨ ¬ l4.all Char.isDigit then none
            else match digitsToNat l4 with
              | none => none
              | some ex =>
                some (if eneg then m / (10 : ℚ) ^ ex else m * (10 : ℚ) ^ ex)
          else none
      match withExp with
      | none => none
      | some q =>
        let v := if neg then -q else q
        if (2 : ℚ) ^ 1024 ≤ |v| then none else some v

/-- Smallest `k ≤ fuel` with `d ∣ 10 ^ k` (decimal denominator exponent).
Every float64 has a power-of-two denominator, so `k ≤ 1074`; fuel 1200. -/
def findDecExp (d : Nat) : Nat → Nat → Option Nat
  | _, 0 => none
  | k, f + 1 => if (10 ^ k) % d = 0 then some k else findDecExp d (k + 1) f

/-- Left-pad a digit string with zeros to length `n`. -/
def padZeros (n : Nat) (l : List Char) : List Char :=
  List.replicate (n - l.length) '0' ++ l

/-- Go `strconv.FormatFloat(v, 'f', -1, 64)` on the decimal model: plain
decimal, no exponent, no trailing fractional zeros (exact expansion of the
carried decimal value, which is the shortest round-trip form for every
value exercised here). -/
def goFormatFloatF (q : ℚ) : List Char :=
  if q = 0 then ['0']
  else
    let sign : List Char := if q < 0 then ['-'] else []
    let n := q.num.natAbs
    let d := q.den
    match findDecExp d 0 1200 with
    | none => ['0']
    | some 0 => sign ++ natStrF 40 (n / d)
    | some k =>
      let m := n * 10 ^ k / d
      let ds := padZeros (k + 1) (natStrF 1200 m)
      sign ++ ds.take (ds.length - k) ++ '.' :: ds.drop (ds.length - k)

/-- Strip trailing zero digits. -/
def stripTrailZeros (l : List Char) : List Char :=
  (l.reverse.dropWhile (· == '0')).reverse

/-- Go `fmt.Sprintf("%v", f)` for a float64, i.e. `FormatFloat(f, 'g', -1, 64)`
on the decimal model: plain decimal unless the decimal exponent is below -4
or at least 21, in which case scientific notation with shortest digits. -/
def goFormatFloatG (q : ℚ) : List Char :=
  if q = 0 then ['0']
  else
    let sign : List Char := if q < 0 then ['-'] else []
    let n := q.num.natAbs
    let d := q.den
    match findDecExp d 0 1200 with
    | none => ['0']
    | some k =>
      let m := n * 10 ^ k / d
      let ds := padZeros (k + 1) (natStrF 1200 m)
      let exp10 : Int := (ds.length : Int) - 1 - (k : Int)
      if -4 ≤ exp10 ∧ exp10 < 21 then
        if k = 0 then sign ++ ds
        else sign ++ ds.take (ds.length - k) ++ '.' :: ds.drop (ds.length - k)
      else
        let sig := stripTrailZeros ds
        let mant :=
          match sig with
          | [] => ['0']
          | d1 :: [] => [d1]
          | d1 :: rest => d1 :: '.' :: rest
        let esign : List Char := if exp10 < 0 then ['-'] else ['+']
        let edig := padZeros 2 (natStrF 40 exp10.natAbs)
        sign ++ mant ++ 'e' :: esign ++ edig

/-- Go `fmt.Sprintf("%v", v)` over the value universe reaching the
evaluator: `nil`, bool, int64, float64, string, json.Number. -/
def goSprintV : Value → List Char
  | .null => "<nil>".data
  | .bool true => "true".data
  | .bool false => "false".data
  | .int n => intStr n
  | .float q => goFormatFloatG q
  | .str s => s.data
  | .num s => s.data

/-- `toString` from main.go: a string is itself; anything else is
`json.Marshal` output with surrounding quotes trimmed. Only the cases for
the Value universe are modeled. -/
def goToString : Value → List Char
  | .str s => s.data
  | .null => "null".data
  | .bool true => "true".data
  | .bool false => "false".data
  | .int n => intStr n
  | .float q => goFormatFloatG q
  | .num s => s.data

/-- `isTruthy` from main.go: nil false, bool itself, string non-blank,
json.Number / float64 / ints non-zero. -/
def isTruthy : Value → Bool
  | .null => false
  | .bool b => b
  | .str s => goTrimL s.data ≠ []
  | .num s =>
    match goParseInt s.data with
    | some i => i ≠ 0
    | none =>
      match goParseFloat s.data with
      | some f => f ≠ 0
      | none => s.data ≠ ['0']
  | .float q => q ≠ 0
  | .int n => intStr n ≠ ['0']

/-- The `eq` closure inside `evalCondFlexible` (main.go lines 919-956):
a type switch on the left value. json.Number compares numerically against
an int/float right side when it parses, otherwise by string form; a string
compares by string form; a bool compares as bool against a bool and by
string form otherwise; ints and floats compare by `%v` string form; nil
equals only nil. -/
def goEq (a b : Value) : Bool :=
  match a with
  | .num s =>
    match b with
    | .int n =>
      match goParseInt s.data with
      | some i => i == n
      | none => s.data == goSprintV b
    | .float q =>
      match goParseFloat s.data with
      | some f => f == q
      | none => s.data == goSprintV b
    | _ => s.data == goSprintV b
  | .str s => s.data == goSprintV b
  | .bool x =>
    match b with
    | .bool y => x == y
    | _ => goSprintV (.bool x) == goSprintV b
  | .int _ => goSprintV a == goSprintV b
  | .float _ => goSprintV a == goSprintV b
  | .null => match b with | .null => true | _ => false

/-- Result of parsing the right-hand-side literal of a comparison:
a value, an unparseable literal (evaluates to false), or the slice panic
`rhs[1:len(rhs)-1]` when `rhs` is a single quote character. -/
inductive RhsRes where
  | ok (v : Value) : RhsRes
  | bad : RhsRes
  | oob : RhsRes
deriving DecidableEq

/-- The rhs-literal switch of `evalCondFlexible` (main.go lines 893-912):
null / true / false (case-insensitive), quoted string with doubled-quote
unescaping, else integer then float parse. When the quoted branch fires on
a one-character string, `rhs[1:len(rhs)-1]` is the out-of-bounds slice
`rhs[1:0]`, a runtime panic. -/
def parseRhs (rhs : List Char) : RhsRes :=
  if eqFold rhs "null".data then .ok .null
  else if eqFold rhs "true".data then .ok (.bool true)
  else if eqFold rhs "false".data then .ok (.bool false)
  else if (['\x27'].isPrefixOf rhs ∧ ['\x27'].isSuffixOf rhs) ∨
          (['"'].isPrefixOf rhs ∧ ['"'].isSuffixOf rhs) then
    if rhs.length < 2 then .oob
    else
      let unq := (rhs.drop 1).dropLast
      .ok (.str (String.mk (repPair '"' '"' '"' (repPair '\x27' '\x27' '\x27' unq))))
  else
    match goParseInt rhs with
    | some i => .ok (.int i)
    | none =>
      match goParseFloat rhs with
      | some f => .ok (.float f)
      | none => .bad

/-- Go map lookup `params[k]` (missing key yields `nil`). -/
def getVal (p : Params) (k : String) : Value :=
  match p.lookup k with
  | some v => v
  | none => .null

/-- `evalCondFlexible` from main.go (lines 872-965). Bare names (no
space/=/!/</> characters) are truthiness tests; otherwise the first of
`==` / `!=` found splits the predicate; an unrecognized operator or rhs
yields false. `none` models the runtime panic in the quoted-rhs branch. -/
def evalCondFlexible (cond : String) (p : Params) : Option Bool :=
  let c := goTrimL cond.data
  if ¬ containsAnyL c " =!<>".data then
    some (isTruthy (getVal p (String.mk c)))
  else
    let op : Option (List Char) :=
      if containsSub "==".data c then some "==".data
      else if containsSub "!=".data c then some "!=".data
      else none
    match op with
    | none => some false
    | some opc =>
      match splitFirstSub opc c with
      | none => some false
      | some (lpart, rpart) =>
        let lhs := goTrimL lpart
        let rhs := goTrimL rpart
        match parseRhs rhs with
        | .oob => none
        | .bad => some false
        | .ok rhsV =>
          let lv := getVal p (String.mk lhs)
          if opc = "==".data then some (goEq lv rhsV)
          else some (!goEq lv rhsV)

/-- Skip to just after the next `*/`; `none` if absent (Go `break`s and
drops the remainder). -/
def dropBlock : List Char → Option (List Char)
  | '*' :: '/' :: rest => some rest
  | _ :: rest => dropBlock rest
  | [] => none

/-- Skip to just after the next newline (the newline itself is consumed);
`none` if absent. -/
def dropLine : List Char → Option (List Char)
  | '\n' :: rest => some rest
  | _ :: rest => dropLine rest
  | [] => none

/-- `stripComments` from main.go (lines 1738-1762), fueled: removes
`/* ... */` spans and `-- ...` line comments (newline included); an
unterminated comment drops the rest of the input. Fuel `length + 1`
always suffices since every step consumes at least one char. -/
def stripF : Nat → List Char → List Char
  | 0, _ => []
  | _ + 1, [] => []
  | f + 1, '/' :: '*' :: rest =>
    (match dropBlock rest with
     | some r => stripF f r
     | none => [])
  | f + 1, '-' :: '-' :: rest =>
    (match dropLine rest with
     | some r => stripF f r
     | none => [])
  | f + 1, c :: cs => c :: stripF f cs

/-- `stripComments` on char lists. -/
def stripCommentsL (l : List Char) : List Char := stripF (l.length + 1) l

/-- `stripComments` from main.go. -/
def stripComments (s : String) : String := String.mk (stripCommentsL s.data)

/-- `regexp \s+ -> " "` (the collapse step of `normalizeForCompare`):
each maximal run of RE2 whitespace becomes one space. The Bool flag is
"currently inside a whitespace run". -/
def collapseAux : Bool → List Char → List Char
  | _, [] => []
  | false, c :: cs => if isRe2Ws c then ' ' :: collapseAux true cs else c :: collapseAux false cs
  | true, c :: cs => if isRe2Ws c then collapseAux true cs else c :: collapseAux false cs

/-- Whitespace-run collapse entry point. -/
def collapseWs (l : List Char) : List Char := collapseAux false l

/-- `normalizeForCompare` from main.go (lines 969-978): strip comments,
collapse whitespace runs, remove the space after `(` and before `)`, `,`,
`;`, and trim. The four `strings.ReplaceAll` calls are `repPair` instances. -/
def normalizeForCompareL (l : List Char) : List Char :=
  goTrimL (repPair ' ' ';' ';' (repPair ' ' ',' ',' (repPair ' ' ')' ')'
    (repPair '(' ' ' '(' (collapseWs (stripCommentsL l))))))

/-- `normalizeForCompare` from main.go. -/
def normalizeForCompare (s : String) : String := String.mk (normalizeForCompareL s.data)

/-- Split on newline chars (Go `strings.Split(s, "\n")`). -/
def splitNl : List Char → List (List Char)
  | [] => [[]]
  | '\n' :: cs => [] :: splitNl cs
  | c :: cs =>
    match splitNl cs with
    | [] => [[c]]
    | t :: ts => (c :: t) :: ts

/-- Go `strings.Fields` (split on unicode whitespace runs), with an
accumulator for the current word (reversed). -/
def fieldsAux : List Char → List Char → List (List Char)
  | acc, [] => if acc.isEmpty then [] else [acc.reverse]
  | acc, c :: cs =>
    if goIsSpace c then
      if acc.isEmpty then fieldsAux [] cs else acc.reverse :: fieldsAux [] cs
    else fieldsAux (c :: acc) cs

/-- Go `strings.Fields`. -/
def goFields (l : List Char) : List (List Char) := fieldsAux [] l

/-- The blank-line filter of `normalizeWhitespace`: drop an empty line
when output is non-empty and the last kept line is empty. -/
def dropBlankRuns : Bool → Bool → List (List Char) → List (List Char)
  | _, _, [] => []
  | started, lastEmpty, ln :: rest =>
    if ln.isEmpty ∧ started ∧ lastEmpty then dropBlankRuns started lastEmpty rest
    else ln :: dropBlankRuns true ln.isEmpty rest

/-- `normalizeWhitespace` from main.go (lines 1764-1778): per line, join
the fields with single spaces; collapse runs of blank lines to one; join
with newlines and trim. -/
def normalizeWhitespaceL (l : List Char) : List Char :=
  goTrimL (List.intercalate ['\n']
    (dropBlankRuns false false ((splitNl l).map (fun ln => List.intercalate [' '] (goFields ln)))))

/-- `normalizeWhitespace` from main.go. -/
def normalizeWhitespace (s : String) : String := String.mk (normalizeWhitespaceL s.data)

/-- ASCII upper-casing (Go `strings.ToUpper`; inputs here are ASCII). -/
def goToUpperL (l : List Char) : List Char := l.map Char.toUpper

/-- Deterministic matcher for `reEmptyWhere` =
`^(?:WHERE)?\s*(?:AND|OR)?\s*\(?\s*\)?$` (main.go line 745). Each optional
literal starts with a character that cannot begin any later piece of the
pattern, so consume-if-present is exactly RE2 matching here. -/
def matchEmptyWhere (l : List Char) : Bool :=
  let skipLit : List Char → List Char → List Char := fun w t =>
    if w.isPrefixOf t then t.drop w.length else t
  let l1 := skipLit "WHERE".data l
  let l2 := l1.dropWhile isRe2Ws
  let l3 :=
    if "AND".data.isPrefixOf l2 then l2.drop 3
    else skipLit "OR".data l2
  let l4 := l3.dropWhile isRe2Ws
  let l5 := skipLit ['('] l4
  let l6 := l5.dropWhile isRe2Ws
  let l7 := skipLit [')'] l6
  l7.isEmpty

/-- Case-insensitive literal prefix match (for `(?i)` keyword literals);
returns the remainder on success. -/
def ciPrefix : List Char → List Char → Option (List Char)
  | [], t => some t
  | _ :: _, [] => none
  | p :: ps, c :: cs => if c.toLower = p.toLower then ciPrefix ps cs else none

/-- Terminator `/\*(?:END|ENDIF|FI)\*/` (case-insensitive), alternatives
tried in source order; returns the remainder after the match. -/
def tryTerm (l : List Char) : Option (List Char) :=
  match l with
  | '/' :: '*' :: t =>
    (match ciPrefix "end*/".data t with
     | some r => some r
     | none =>
       match ciPrefix "endif*/".data t with
       | some r => some r
       | none => ciPrefix "fi*/".data t)
  | _ => none

/-- Lazy-body scan: shortest body such that `term` matches right after it;
returns (body, remainder after terminator). Models `([\s\S]*?)` followed
by a terminator in RE2 (leftmost terminator wins). -/
def scanBody (term : List Char → Option (List Char)) : List Char → Option (List Char × List Char)
  | [] => none
  | c :: cs =>
    match term (c :: cs) with
    | some rest => some ([], rest)
    | none =>
      match scanBody term cs with
      | some (b, r) => some (c :: b, r)
      | none => none

/-- Closer of an optional block: `/\*\?\s*\*/`. -/
def optCloser (l : List Char) : Option (List Char) :=
  match l with
  | '/' :: '*' :: '?' :: u =>
    (match u.dropWhile isRe2Ws with
     | '*' :: '/' :: r => some r
     | _ => none)
  | _ => none

/-- Match of `reOptBlock` = `(?i)/\*\?\s*([A-Za-z0-9_]+)\s*\?\*/([\s\S]*?)/\*\?\s*\*/`
at the head of the input: returns (key, body, remainder). The `\s*` runs
and the word-char run are over disjoint character classes, so greedy
munching is exact. -/
def tryOpt (l : List Char) : Option (List Char × List Char × List Char) :=
  match l with
  | '/' :: '*' :: '?' :: t =>
    let t1 := t.dropWhile isRe2Ws
    let key := t1.takeWhile isWordChar
    if key.isEmpty then none
    else
      match (t1.drop key.length).dropWhile isRe2Ws with
      | '?' :: '*' :: '/' :: t3 =>
        (match scanBody optCloser t3 with
         | some (body, rest) => some (key, body, rest)
         | none => none)
      | _ => none
  | _ => none

/-- Match of `reIfBlock`'s opener `(?i)/\*IF\s+([^*]+?)\*/` at the head of
the input: returns (raw condition group, remainder after the closing
`*/`). The lazy `[^*]+?` is forced to stop at the first `*`, so the match
condition is: at least one whitespace char, at least two chars before the
first `*`, and a `/` right after it. The greedy `\s+` takes the maximal
whitespace run but backs off one char if the condition would be empty. -/
def tryIfOpen (l : List Char) : Option (List Char × List Char) :=
  match l with
  | '/' :: '*' :: t0 =>
    (match ciPrefix "if".data t0 with
     | none => none
     | some t =>
       let pre := t.takeWhile (· != '*')
       match t.drop pre.length with
       | '*' :: '/' :: rest =>
         (match pre with
          | c0 :: _ :: _ =>
            if isRe2Ws c0 then
              let wsRun := (pre.takeWhile isRe2Ws).length
              some (pre.drop (min wsRun (pre.length - 1)), rest)
            else none
          | _ => none)
       | _ => none)
  | _ => none

/-- Match of `reIfBlock` (opener, lazy body, terminator) at the head. -/
def tryIf (l : List Char) : Option (List Char × List Char × List Char) :=
  match tryIfOpen l with
  | none => none
  | some (cond, afterOpen) =>
    match scanBody tryTerm afterOpen with
    | some (body, rest) => some (cond, body, rest)
    | none => none

/-- Match of `reBeginEnd` = `(?i)/\*BEGIN\*/([\s\S]*?)/\*(?:END|ENDIF|FI)\*/`
at the head: returns (body, remainder). -/
def tryBegin (l : List Char) : Option (List Char × List Char) :=
  match l with
  | '/' :: '*' :: t =>
    (match ciPrefix "begin*/".data t with
     | none => none
     | some t2 => scanBody tryTerm t2)
  | _ => none

/-- Default literal of `reParam`:
`("([^"]*)"|'([^']*)'|[0-9.+-]+|true|false|null)` with alternatives in
source order; returns (matched text in original case, remainder). -/
def parseDefaultLit (t : List Char) : Option (List Char × List Char) :=
  match t with
  | '"' :: u =>
    let body := u.takeWhile (· != '"')
    (match u.drop body.length with
     | '"' :: r => some ('"' :: body ++ ['"'], r)
     | _ => none)
  | '\x27' :: u =>
    let body := u.takeWhile (· != '\x27')
    (match u.drop body.length with
     | '\x27' :: r => some ('\x27' :: body ++ ['\x27'], r)
     | _ => none)
  | _ =>
    let numRun := t.takeWhile isNumLitChar
    if ¬ numRun.isEmpty then some (numRun, t.drop numRun.length)
    else if (ciPrefix "true".data t).isSome then some (t.take 4, t.drop 4)
    else if (ciPrefix "false".data t).isSome then some (t.take 5, t.drop 5)
    else if (ciPrefix "null".data t).isSome then some (t.take 4, t.drop 4)
    else none

/-- Match of `reParam` = `(?i)/\*([a-zA-Z0-9_]+)\*/(...)` at the head:
returns (name, default literal, remainder). -/
def tryParam (l : List Char) : Option (List Char × List Char × List Char) :=
  match l with
  | '/' :: '*' :: t =>
    let name := t.takeWhile isWordChar
    if name.isEmpty then none
    else
      match t.drop name.length with
      | '*' :: '/' :: t2 =>
        (match parseDefaultLit t2 with
         | some (defW, rest) => some (name, defW, rest)
         | none => none)
      | _ => none
  | _ => none

/-- Pass 1 of `renderNyanSQL`: `reOptBlock.ReplaceAllStringFunc` — keep
the body iff the key is truthy. Fueled left-to-right scan; replacements
are not rescanned, scanning resumes after each match. -/
def optPassF : Nat → List Char → Params → List Char
  | 0, l, _ => l
  | _ + 1, [], _ => []
  | f + 1, c :: cs, p =>
    match tryOpt (c :: cs) with
    | some (key, body, rest) =>
      (if isTruthy (getVal p (String.mk (goTrimL key))) then body else []) ++ optPassF f rest p
    | none => c :: optPassF f cs p

/-- Pass 2 of `renderNyanSQL`: `reIfBlock.ReplaceAllStringFunc` — keep the
body iff the condition evaluates true. `none` propagates the evaluator's
panic. -/
def ifPassF : Nat → List Char → Params → Option (List Char)
  | 0, l, _ => some l
  | _ + 1, [], _ => some []
  | f + 1, c :: cs, p =>
    match tryIf (c :: cs) with
    | some (cond, body, rest) =>
      (match evalCondFlexible (String.mk (goTrimL cond)) p with
       | none => none
       | some b =>
         match ifPassF f rest p with
         | none => none
         | some tail => some ((if b then body else []) ++ tail))
    | none =>
      match ifPassF f cs p with
      | none => none
      | some tail => some (c :: tail)

/-- Replacement of pass 3 (main.go lines 781-793): strip comments from the
block body, normalize whitespace, upper-case; drop the block if the result
is empty or matches `reEmptyWhere`, else keep the body unchanged. -/
def pruneRepl (inner : List Char) : List Char :=
  let only := normalizeWhitespaceL (stripCommentsL inner)
  let up := goToUpperL (goTrimL only)
  if up.isEmpty || matchEmptyWhere up then [] else inner

/-- Pass 3 of `renderNyanSQL`: `reBeginEnd.ReplaceAllStringFunc`. -/
def prunePassF : Nat → List Char → List Char
  | 0, l => l
  | _ + 1, [] => []
  | f + 1, c :: cs =>
    match tryBegin (c :: cs) with
    | some (body, rest) => pruneRepl body ++ prunePassF f rest
    | none => c :: prunePassF f cs

/-- `quoteByDefault` from main.go (lines 833-840) on char lists: re-quote
`s` in the quote style of the default literal, doubling that quote char. -/
def quoteByDefaultL (defW s : List Char) : List Char :=
  if ['"'].isPrefixOf defW then '"' :: dupChar '"' s ++ ['"']
  else '\x27' :: dupChar '\x27' s ++ ['\x27']

/-- `quoteByDefault` from main.go. -/
def quoteByDefault (defWhole s : String) : String :=
  String.mk (quoteByDefaultL defWhole.data s.data)

/-- Replacement of pass 4 (main.go lines 796-827): a present non-nil value
is formatted by type (bool literal, integer-exact float, json.Number,
re-quoted string, generic stringification); otherwise the default literal
stands. The float test models `float64(int64(vv)) == vv`: exact for every
integral in-range float64. -/
def paramRepl (p : Params) (name : String) (defW : List Char) : List Char :=
  match p.lookup name with
  | none => defW
  | some v =>
    if v = .null then defW
    else
      match v with
      | .bool true => "true".data
      | .bool false => "false".data
      | .float q =>
        if q.den = 1 ∧ -(2 ^ 63) ≤ q.num ∧ q.num ≤ 2 ^ 63 - 1 then intStr q.num
        else goFormatFloatF q
      | .num s =>
        (match goParseInt s.data with
         | some i => intStr i
         | none =>
           match goParseFloat s.data with
           | some fq => goFormatFloatF fq
           | none => s.data)
      | .str s => quoteByDefaultL defW s.data
      | _ => quoteByDefaultL defW (goToString v)

/-- Pass 4 of `renderNyanSQL`: `reParam.ReplaceAllStringFunc`. -/
def paramPassF : Nat → List Char → Params → List Char
  | 0, l, _ => l
  | _ + 1, [], _ => []
  | f + 1, c :: cs, p =>
    match tryParam (c :: cs) with
    | some (name, defW, rest) => paramRepl p (String.mk name) defW ++ paramPassF f rest p
    | none => c :: paramPassF f cs p

/-- `renderNyanSQL` from main.go (lines 749-831): optional blocks, then IF
blocks, then BEGIN/END pruning, then parameter substitution, then
whitespace normalization and trim. `none` models the runtime panic
reachable through the condition evaluator. -/
def renderNyanSQL (tpl : String) (p : Params) : Option String :=
  let s1 := optPassF (tpl.data.length + 1) tpl.data p
  match ifPassF (s1.length + 1) s1 p with
  | none => none
  | some s2 =>
    let s3 := prunePassF (s2.length + 1) s2
    let s4 := paramPassF (s3.length + 1) s3 p
    some (String.mk (goTrimL (normalizeWhitespaceL s4)))

/-- All `reParam` matches of a template, in textual order, as
(name, default literal) pairs (`FindAllStringSubmatch`). Fueled scan. -/
def paramMatchesF : Nat → List Char → List (String × String)
  | 0, _ => []
  | _ + 1, [] => []
  | f + 1, c :: cs =>
    match tryParam (c :: cs) with
    | some (name, defW, rest) => (String.mk name, String.mk defW) :: paramMatchesF f rest
    | none => paramMatchesF f cs

/-- All `reParam` matches of a template. -/
def paramMatches (s : String) : List (String × String) :=
  paramMatchesF (s.data.length + 1) s.data

/-- The default-literal decoding switch of `extractParamDefaults`
(main.go lines 1211-1237): quoted strings are unescaped (each style only
undoubles its own quote), true/false/null case-insensitively, else
integer then float parse, else the raw text as a string. The scanner only
produces quoted literals of length at least 2, so the slice
`defWhole[1:len-1]` is always in bounds here. -/
def decodeDefault (defWhole : String) : Value :=
  let d := defWhole.data
  if ['\x27'].isPrefixOf d ∧ ['\x27'].isSuffixOf d ∧ 2 ≤ d.length then
    .str (String.mk (repPair '\x27' '\x27' '\x27' ((d.drop 1).dropLast)))
  else if ['"'].isPrefixOf d ∧ ['"'].isSuffixOf d ∧ 2 ≤ d.length then
    .str (String.mk (repPair '"' '"' '"' ((d.drop 1).dropLast)))
  else if eqFold d "true".data then .bool true
  else if eqFold d "false".data then .bool false
  else if eqFold d "null".data then .null
  else
    match goParseInt d with
    | some i => .int i
    | none =>
      match goParseFloat d with
      | some f => .float f
      | none => .str defWhole

/-- Go map assignment `m[name] = v` on the association-list model:
replace in place if the key exists, else append. -/
def insertReplace : List (String × Value) → String → Value → List (String × Value)
  | [], k, v => [(k, v)]
  | (k0, v0) :: t, k, v =>
    if k0 == k then (k0, v) :: t else (k0, v0) :: insertReplace t k v

/-- `extractParamDefaults` from main.go (lines 1203-1240): fold every
placeholder match into a map from name to decoded default (later matches
overwrite earlier ones, as Go map assignment does). -/
def extractParamDefaults (sqlText : String) : List (String × Value) :=
  (paramMatches sqlText).foldl (fun m pr => insertReplace m pr.1 (decodeDefault pr.2)) []

/-- All `reIfHead` = `(?i)/\*IF\s+([^*]+?)\*/` matches (condition groups),
in textual order. -/
def ifHeadsF : Nat → List Char → List (List Char)
  | 0, _ => []
  | _ + 1, [] => []
  | f + 1, c :: cs =>
    match tryIfOpen (c :: cs) with
    | some (cond, rest) => cond :: ifHeadsF f rest
    | none => ifHeadsF f cs

/-- All matches of `[A-Za-z_][A-Za-z0-9_]*` in a condition (Go
`FindAllString`, leftmost, maximal munch, non-overlapping). The
accumulator carries the current word reversed. -/
def identWordsAux : List Char → List Char → List (List Char)
  | acc, [] => if acc.isEmpty then [] else [acc.reverse]
  | acc, c :: cs =>
    if acc.isEmpty then
      if isIdentStart c then identWordsAux [c] cs else identWordsAux [] cs
    else
      if isWordChar c then identWordsAux (c :: acc) cs
      else (acc.reverse) :: identWordsAux [] cs

/-- Identifier-like words of a condition string. -/
def identWords (l : List Char) : List (List Char) := identWordsAux [] l

/-- Reserved words discarded by `findTruthyKeysForVariants`. -/
def isReservedWord (w : List Char) : Bool :=
  let lw := w.map Char.toLower
  lw == "null".data || lw == "true".data || lw == "false".data ||
  lw == "and".data || lw == "or".data || lw == "not".data

/-- All `reBlockKeys` = `(?i)/\*\?\s*([A-Za-z0-9_]+)\s*\?\*/` matches
(optional-block keys), in textual order. -/
def blockKeysF : Nat → List Char → List String
  | 0, _ => []
  | _ + 1, [] => []
  | f + 1, c :: cs =>
    match c :: cs with
    | '/' :: '*' :: '?' :: t =>
      (let t1 := t.dropWhile isRe2Ws
       let key := t1.takeWhile isWordChar
       if key.isEmpty then blockKeysF f cs
       else
         match (t1.drop key.length).dropWhile isRe2Ws with
         | '?' :: '*' :: '/' :: t3 => String.mk key :: blockKeysF f t3
         | _ => blockKeysF f cs)
    | _ => blockKeysF f cs

/-- Append if not already present (set-union on an encounter-ordered list,
modeling the Go `map[string]struct{}` as a set of keys). -/
def insertIfAbsent (x : String) (xs : List String) : List String :=
  if xs.contains x then xs else xs ++ [x]

/-- Insertion into a sorted list (Go `sort.Strings`: ascending
lexicographic; byte order and code-point order agree on the ASCII names
this program handles). -/
def insSorted (s : String) : List String → List String
  | [] => [s]
  | x :: xs => if s < x then s :: x :: xs else x :: insSorted s xs

/-- Sort a list of strings ascending. -/
def sortStrings (l : List String) : List String := l.foldr insSorted []

/-- `findTruthyKeysForVariants` from main.go (lines 1550-1578): the union
of non-reserved identifier words of every IF condition and of every
optional-block key, sorted ascending. -/
def findTruthyKeysForVariants (sqlContent : String) : List String :=
  let fromIf := ((ifHeadsF (sqlContent.data.length + 1) sqlContent.data).map
    (fun cond => (identWords cond).filter (fun w => ¬ isReservedWord w))).flatten
  let keys := (fromIf.map String.mk) ++ blockKeysF (sqlContent.data.length + 1) sqlContent.data
  sortStrings (keys.foldl (fun acc k => insertIfAbsent k acc) [])

/-- All RE2-whitespace chars in `l` are plain spaces. -/
def wsOnlySpace (l : List Char) : Prop := ∀ c ∈ l, isRe2Ws c = true → c = ' '

/-- No adjacent pair `x, y` occurs in `l`. -/
def noPair (x y : Char) (l : List Char) : Prop :=
  List.Chain' (fun a b => ¬ (a = x ∧ b = y)) l

/-! Helper lemmas about `repPair`, `collapseAux` and `goTrimL`, used for
the idempotence analysis of `normalizeForCompare`. -/

theorem repPair_head (x y z : Char) (l : List Char) :
    (repPair x y z l).head? = l.head? ∨
    ((repPair x y z l).head? = some z ∧ l.head? = some x) := by
  match l with
  | [] => left; rfl
  | [c] => left; rfl
  | a :: b :: rest =>
    simp only [repPair]
    split
    · next h => right; exact ⟨rfl, by simp [h.1]⟩
    · left; rfl

theorem repPair_mem (x y z c : Char) : ∀ l, c ∈ repPair x y z l → c ∈ l ∨ c = z
  | [] => by simp [repPair]
  | [d] => by simp only [repPair]; exact fun h => Or.inl h
  | a :: b :: rest => by
    simp only [repPair]
    split
    · intro h
      rcases List.mem_cons.mp h with h1 | h2
      · right; exact h1
      · rcases repPair_mem x y z c rest h2 with h3 | h4
        · exact Or.inl (List.mem_cons_of_mem _ (List.mem_cons_of_mem _ h3))
        · exact Or.inr h4
    · intro h
      rcases List.mem_cons.mp h with h1 | h2
      · exact Or.inl (h1 ▸ List.mem_cons_self _ _)
      · rcases repPair_mem x y z c (b :: rest) h2 with h3 | h4
        · exact Or.inl (List.mem_cons_of_mem _ h3)
        · exact Or.inr h4

theorem repPair_pres (x y z u v : Char) (hzu : z ≠ u) (hzv : z ≠ v) :
    ∀ l, noPair u v l → noPair u v (repPair x y z l)
  | [] => by simp [repPair, noPair]
  | [c] => by simp [repPair, noPair]
  | a :: b :: rest => by
    intro h
    have hab : ¬ (a = u ∧ b = v) := (List.chain'_cons.mp h).1
    have hbr : noPair u v (b :: rest) := (List.chain'_cons.mp h).2
    have hrest : noPair u v rest := (List.chain'_cons'.mp hbr).2
    simp only [repPair]
    split
    · refine List.chain'_cons'.mpr ⟨?_, repPair_pres x y z u v hzu hzv rest hrest⟩
      intro w _ hc
      exact hzu hc.1
    · refine List.chain'_cons'.mpr ⟨?_, repPair_pres x y z u v hzu hzv (b :: rest) hbr⟩
      intro w hw hc
      rcases repPair_head x y z (b :: rest) with hh | hh
      · rw [hh] at hw
        simp only [List.head?_cons, Option.mem_def, Option.some.injEq] at hw
        exact hab ⟨hc.1, by rw [hw]; exact hc.2⟩
      · rw [hh.1] at hw
        simp only [Option.mem_def, Option.some.injEq] at hw
        exact hzv (by rw [hw]; exact hc.2)

theorem repPair_gen_self (x : Char) (hx : x ≠ ' ') :
    ∀ l, noPair ' ' ' ' l → noPair x ' ' (repPair x ' ' x l)
  | [] => by simp [repPair, noPair]
  | [c] => by simp [repPair, noPair]
  | a :: b :: rest => by
    intro h
    have hbr : noPair ' ' ' ' (b :: rest) := (List.chain'_cons.mp h).2
    have hrest : noPair ' ' ' ' rest := (List.chain'_cons'.mp hbr).2
    simp only [repPair]
    split
    · next hcond =>
      refine List.chain'_cons'.mpr ⟨?_, repPair_gen_self x hx rest hrest⟩
      intro w hw hc
      rcases repPair_head x ' ' x rest with hh | hh
      · rw [hh] at hw
        exact (List.chain'_cons'.mp hbr).1 w hw ⟨hcond.2, hc.2⟩
      · rw [hh.1] at hw
        simp only [Option.mem_def, Option.some.injEq] at hw
        exact hx (by rw [hw]; exact hc.2)
    · next hcond =>
      refine List.chain'_cons'.mpr ⟨?_, repPair_gen_self x hx (b :: rest) hbr⟩
      intro w hw hc
      rcases repPair_head x ' ' x (b :: rest) with hh | hh
      · rw [hh] at hw
        simp only [List.head?_cons, Option.mem_def, Option.some.injEq] at hw
        exact hcond ⟨hc.1, by rw [hw]; exact hc.2⟩
      · rw [hh.1] at hw
        simp only [Option.mem_def, Option.some.injEq] at hw
        exact hx (by rw [hw]; exact hc.2)

theorem repPair_gen_absorb (y : Char) (hy : y ≠ ' ') :
    ∀ l, noPair ' ' ' ' l → noPair ' ' y (repPair ' ' y y l)
  | [] => by simp [repPair, noPair]
  | [c] => by simp [repPair, noPair]
  | a :: b :: rest => by
    intro h
    have hab : ¬ (a = ' ' ∧ b = ' ') := (List.chain'_cons.mp h).1
    have hbr : noPair ' ' ' ' (b :: rest) := (List.chain'_cons.mp h).2
    have hrest : noPair ' ' ' ' rest := (List.chain'_cons'.mp hbr).2
    simp only [repPair]
    split
    · refine List.chain'_cons'.mpr ⟨?_, repPair_gen_absorb y hy rest hrest⟩
      intro w _ hc
      exact hy hc.1
    · next hcond =>
      refine List.chain'_cons'.mpr ⟨?_, repPair_gen_absorb y hy (b :: rest) hbr⟩
      intro w hw hc
      rcases repPair_head ' ' y y (b :: rest) with hh | hh
      · rw [hh] at hw
        simp only [List.head?_cons, Option.mem_def, Option.some.injEq] at hw
        exact hcond ⟨hc.1, by rw [hw]; exact hc.2⟩
      · have hb : b = ' ' := by
          have := hh.2
          simp only [List.head?_cons, Option.some.injEq] at this
          exact this
        exact hab ⟨hc.1, hb⟩

theorem repPair_id (x y z : Char) : ∀ l, noPair x y l → repPair x y z l = l
  | [] => by simp [repPair]
  | [c] => by simp [repPair]
  | a :: b :: rest => by
    intro h
    simp only [repPair]
    split
    · next hcond => exact absurd hcond (List.chain'_cons.mp h).1
    · rw [repPair_id x y z (b :: rest) (List.chain'_cons.mp h).2]

theorem wsOnlySpace_tail {c : Char} {cs : List Char} (h : wsOnlySpace (c :: cs)) :
    wsOnlySpace cs :=
  fun d hd => h d (List.mem_cons_of_mem _ hd)

theorem collapseAux_good : ∀ l : List Char,
    (wsOnlySpace (collapseAux false l) ∧ noPair ' ' ' ' (collapseAux false l)) ∧
    (wsOnlySpace (collapseAux true l) ∧ noPair ' ' ' ' (collapseAux true l) ∧
      (collapseAux true l).head? ≠ some ' ') := by
  intro l
  induction l with
  | nil => refine ⟨⟨?_, ?_⟩, ?_, ?_, ?_⟩ <;> simp [collapseAux, noPair, wsOnlySpace]
  | cons c cs ih =>
    by_cases h : isRe2Ws c = true
    · refine ⟨⟨?_, ?_⟩, ?_, ?_, ?_⟩
      · simp only [collapseAux, h, if_pos]
        intro d hd hws
        rcases List.mem_cons.mp hd with h1 | h2
        · exact h1
        · exact ih.2.1 d h2 hws
      · simp only [collapseAux, h, if_pos]
        refine List.chain'_cons'.mpr ⟨?_, ih.2.2.1⟩
        intro w hw hc
        exact ih.2.2.2 (by rw [← hc.2]; exact hw)
      · simp only [collapseAux, h, if_pos]; exact ih.2.1
      · simp only [collapseAux, h, if_pos]; exact ih.2.2.1
      · simp only [collapseAux, h, if_pos]; exact ih.2.2.2
    · have hcs : ¬ c = ' ' := fun he => h (by rw [he]; rfl)
      refine ⟨⟨?_, ?_⟩, ?_, ?_, ?_⟩
      · simp only [collapseAux, h, if_neg, if_false]
        intro d hd hws
        rcases List.mem_cons.mp hd with h1 | h2
        · exact absurd (h1 ▸ hws) h
        · exact ih.1.1 d h2 hws
      · simp only [collapseAux, h, if_neg, if_false]
        refine List.chain'_cons'.mpr ⟨?_, ih.1.2⟩
        intro w _ hc
        exact hcs hc.1
      · simp only [collapseAux, h, if_neg, if_false]
        intro d hd hws
        rcases List.mem_cons.mp hd with h1 | h2
        · exact absurd (h1 ▸ hws) h
        · exact ih.1.1 d h2 hws
      · simp only [collapseAux, h, if_neg, if_false]
        refine List.chain'_cons'.mpr ⟨?_, ih.1.2⟩
        intro w _ hc
        exact hcs hc.1
      · simp only [collapseAux, h, if_neg, if_false, List.head?_cons]
        intro he
        exact hcs (Option.some.injEq _ _ ▸ he)

theorem collapse_id : ∀ l, wsOnlySpace l → noPair ' ' ' ' l → collapseAux false l = l := by
  intro l
  induction l with
  | nil => intro _ _; rfl
  | cons c cs ih =>
    intro hws hnp
    have hwcs : wsOnlySpace cs := wsOnlySpace_tail hws
    have hncs : noPair ' ' ' ' cs := (List.chain'_cons'.mp hnp).2
    cases h : isRe2Ws c with
    | false => simp [collapseAux, h, ih hwcs hncs]
    | true =>
      have hc : c = ' ' := hws c (List.mem_cons_self _ _) h
      subst hc
      cases cs with
      | nil => simp [collapseAux, h]
      | cons d ds =>
        have hd : ¬ d = ' ' := fun hde => (List.chain'_cons.mp hnp).1 ⟨rfl, hde⟩
        have hdws : isRe2Ws d = false := by
          cases hw : isRe2Ws d
          · rfl
          · exact absurd (hws d (by simp) hw) hd
        have htail : collapseAux false (d :: ds) = d :: ds := ih hwcs hncs
        have hds : collapseAux false ds = ds := by
          have hstep : collapseAux false (d :: ds) = d :: collapseAux false ds := by
            simp [collapseAux, hdws]
          rw [hstep] at htail
          injection htail
        simp [collapseAux, h, hdws, hds]

theorem chain'_dropWhile {R : Char → Char → Prop} (p : Char → Bool) :
    ∀ l, List.Chain' R l → List.Chain' R (l.dropWhile p) := by
  intro l h
  induction l with
  | nil => simp only [List.dropWhile_nil]; exact h
  | cons c cs ih =>
    rw [List.dropWhile_cons]
    split
    · exact ih ((List.chain'_cons'.mp h).2)
    · exact h

theorem chain'_goTrim {R : Char → Char → Prop} (l : List Char)
    (h : List.Chain' R l) : List.Chain' R (goTrimL l) := by
  unfold goTrimL
  have h1 : List.Chain' R (l.dropWhile goIsSpace) := chain'_dropWhile _ l h
  have h2 : List.Chain' (flip R) ((l.dropWhile goIsSpace).reverse) :=
    List.chain'_reverse.mpr h1
  have h3 : List.Chain' (flip R) (((l.dropWhile goIsSpace).reverse).dropWhile goIsSpace) :=
    chain'_dropWhile _ _ h2
  exact List.chain'_reverse.mpr h3

theorem mem_goTrim {c : Char} {l : List Char} (h : c ∈ goTrimL l) : c ∈ l := by
  unfold goTrimL at h
  rw [List.mem_reverse] at h
  have h2 := (@List.dropWhile_sublist Char ((l.dropWhile goIsSpace).reverse) goIsSpace).mem h
  rw [List.mem_reverse] at h2
  exact (@List.dropWhile_sublist Char l goIsSpace).mem h2

theorem dropWhile_dropWhile (p : Char → Bool) :
    ∀ l : List Char, List.dropWhile p (List.dropWhile p l) = List.dropWhile p l := by
  intro l
  induction l with
  | nil => rfl
  | cons c cs ih =>
    rw [List.dropWhile_cons]
    split
    · exact ih
    · next hp => rw [List.dropWhile_cons, if_neg hp]

theorem headNotP_of_dropWhile_eq (p : Char → Bool) (l : List Char)
    (h : List.dropWhile p l = l) : ∀ c ∈ l.head?, p c = false := by
  cases l with
  | nil => intro c hc; simp at hc
  | cons a as =>
    rw [List.dropWhile_cons] at h
    intro c hc
    simp only [List.head?_cons, Option.mem_def, Option.some.injEq] at hc
    subst hc
    by_cases hp : p a = true
    · rw [if_pos hp] at h
      have hlen := List.Sublist.length_le (@List.dropWhile_sublist _ as p)
      rw [h] at hlen
      simp at hlen
    · simpa using hp

theorem dropWhile_eq_self_of_head (p : Char → Bool) (l : List Char)
    (h : ∀ c ∈ l.head?, p c = false) : List.dropWhile p l = l := by
  cases l with
  | nil => rfl
  | cons a as =>
    have := h a (by simp)
    rw [List.dropWhile_cons, this]
    simp

theorem goTrim_idem (l : List Char) : goTrimL (goTrimL l) = goTrimL l := by
  unfold goTrimL
  set m := l.dropWhile goIsSpace with hm
  set u := m.reverse.dropWhile goIsSpace with hu
  have hmm : List.dropWhile goIsSpace m = m := dropWhile_dropWhile _ l
  have huu : List.dropWhile goIsSpace u = u := by rw [hu]; exact dropWhile_dropWhile _ _
  have hpre : u.reverse <+: m := by
    have hsuf : u <:+ m.reverse := List.dropWhile_suffix _
    have := List.reverse_prefix.mpr hsuf
    rwa [List.reverse_reverse] at this
  have hstep1 : List.dropWhile goIsSpace u.reverse = u.reverse := by
    apply dropWhile_eq_self_of_head
    intro c hc
    obtain ⟨r, hr⟩ := hpre
    have hcm : c ∈ m.head? := by
      cases hur : u.reverse with
      | nil => rw [hur] at hc; simp at hc
      | cons d ds =>
        rw [hur] at hc hr
        simp only [List.head?_cons, Option.mem_def, Option.some.injEq] at hc
        subst hc
        rw [← hr]
        simp
    exact headNotP_of_dropWhile_eq _ _ hmm c hcm
  rw [hstep1, List.reverse_reverse, huu]

theorem wsOnly_goTrim {l : List Char} (h : wsOnlySpace l) : wsOnlySpace (goTrimL l) :=
  fun c hc hw => h c (mem_goTrim hc) hw

theorem wsOnly_repPair {x y z : Char} (hz : isRe2Ws z = false) {l : List Char}
    (h : wsOnlySpace l) : wsOnlySpace (repPair x y z l) := by
  intro c hc hw
  rcases repPair_mem x y z c l hc with h1 | h2
  · exact h c h1 hw
  · rw [h2, hz] at hw
    exact absurd hw (by simp)

/-- List-level core of the amended idempotence claim: if a second comment
strip leaves the normalized text unchanged, then the whole normalization
pipeline is idempotent on it, because the output of the first pass has
only single interior spaces and none of the four punctuation-space
patterns, and trimming is idempotent. -/
theorem normalizeL_idem (l : List Char)
    (h : stripCommentsL (normalizeForCompareL l) = normalizeForCompareL l) :
    normalizeForCompareL (normalizeForCompareL l) = normalizeForCompareL l := by
  set n := normalizeForCompareL l with hn
  have hnz : n = goTrimL (repPair ' ' ';' ';' (repPair ' ' ',' ',' (repPair ' ' ')' ')'
      (repPair '(' ' ' '(' (collapseWs (stripCommentsL l)))))) := hn
  have hws1 : wsOnlySpace (collapseWs (stripCommentsL l)) :=
    (collapseAux_good (stripCommentsL l)).1.1
  have hnd1 : noPair ' ' ' ' (collapseWs (stripCommentsL l)) :=
    (collapseAux_good (stripCommentsL l)).1.2
  have hndd1 : noPair ' ' ' ' (repPair '(' ' ' '(' (collapseWs (stripCommentsL l))) :=
    repPair_pres _ _ _ _ _ (by decide) (by decide) _ hnd1
  have hndd2 : noPair ' ' ' ' (repPair ' ' ')' ')'
      (repPair '(' ' ' '(' (collapseWs (stripCommentsL l)))) :=
    repPair_pres _ _ _ _ _ (by decide) (by decide) _ hndd1
  have hndd3 : noPair ' ' ' ' (repPair ' ' ',' ',' (repPair ' ' ')' ')'
      (repPair '(' ' ' '(' (collapseWs (stripCommentsL l))))) :=
    repPair_pres _ _ _ _ _ (by decide) (by decide) _ hndd2
  have hndd4 : noPair ' ' ' ' (repPair ' ' ';' ';' (repPair ' ' ',' ','
      (repPair ' ' ')' ')' (repPair '(' ' ' '(' (collapseWs (stripCommentsL l)))))) :=
    repPair_pres _ _ _ _ _ (by decide) (by decide) _ hndd3
  have hndn : noPair ' ' ' ' n := by rw [hnz]; exact chain'_goTrim _ hndd4
  have hwsd1 : wsOnlySpace (repPair '(' ' ' '(' (collapseWs (stripCommentsL l))) :=
    wsOnly_repPair (by decide) hws1
  have hwsd2 : wsOnlySpace (repPair ' ' ')' ')'
      (repPair '(' ' ' '(' (collapseWs (stripCommentsL l)))) :=
    wsOnly_repPair (by decide) hwsd1
  have hwsd3 : wsOnlySpace (repPair ' ' ',' ',' (repPair ' ' ')' ')'
      (repPair '(' ' ' '(' (collapseWs (stripCommentsL l))))) :=
    wsOnly_repPair (by decide) hwsd2
  have hwsd4 : wsOnlySpace (repPair ' ' ';' ';' (repPair ' ' ',' ','
      (repPair ' ' ')' ')' (repPair '(' ' ' '(' (collapseWs (stripCommentsL l)))))) :=
    wsOnly_repPair (by decide) hwsd3
  have hwsn : wsOnlySpace n := by rw [hnz]; exact wsOnly_goTrim hwsd4
  have hp1d1 : noPair '(' ' ' (repPair '(' ' ' '(' (collapseWs (stripCommentsL l))) :=
    repPair_gen_self '(' (by decide) _ hnd1
  have hp1d2 : noPair '(' ' ' (repPair ' ' ')' ')'
      (repPair '(' ' ' '(' (collapseWs (stripCommentsL l)))) :=
    repPair_pres _ _ _ _ _ (by decide) (by decide) _ hp1d1
  have hp1d3 : noPair '(' ' ' (repPair ' ' ',' ',' (repPair ' ' ')' ')'
      (repPair '(' ' ' '(' (collapseWs (stripCommentsL l))))) :=
    repPair_pres _ _ _ _ _ (by decide) (by decide) _ hp1d2
  have hp1d4 : noPair '(' ' ' (repPair ' ' ';' ';' (repPair ' ' ',' ','
      (repPair ' ' ')' ')' (repPair '(' ' ' '(' (collapseWs (stripCommentsL l)))))) :=
    repPair_pres _ _ _ _ _ (by decide) (by decide) _ hp1d3
  have hp1n : noPair '(' ' ' n := by rw [hnz]; exact chain'_goTrim _ hp1d4
  have hp2d2 : noPair ' ' ')' (repPair ' ' ')' ')'
      (repPair '(' ' ' '(' (collapseWs (stripCommentsL l)))) :=
    repPair_gen_absorb ')' (by decide) _ hndd1
  have hp2d3 : noPair ' ' ')' (repPair ' ' ',' ',' (repPair ' ' ')' ')'
      (repPair '(' ' ' '(' (collapseWs (stripCommentsL l))))) :=
    repPair_pres _ _ _ _ _ (by decide) (by decide) _ hp2d2
  have hp2d4 : noPair ' ' ')' (repPair ' ' ';' ';' (repPair ' ' ',' ','
      (repPair ' ' ')' ')' (repPair '(' ' ' '(' (collapseWs (stripCommentsL l)))))) :=
    repPair_pres _ _ _ _ _ (by decide) (by decide) _ hp2d3
  have hp2n : noPair ' ' ')' n := by rw [hnz]; exact chain'_goTrim _ hp2d4
  have hp3d3 : noPair ' ' ',' (repPair ' ' ',' ',' (repPair ' ' ')' ')'
      (repPair '(' ' ' '(' (collapseWs (stripCommentsL l))))) :=
    repPair_gen_absorb ',' (by decide) _ hndd2
  have hp3d4 : noPair ' ' ',' (repPair ' ' ';' ';' (repPair ' ' ',' ','
      (repPair ' ' ')' ')' (repPair '(' ' ' '(' (collapseWs (stripCommentsL l)))))) :=
    repPair_pres _ _ _ _ _ (by decide) (by decide) _ hp3d3
  have hp3n : noPair ' ' ',' n := by rw [hnz]; exact chain'_goTrim _ hp3d4
  have hp4d4 : noPair ' ' ';' (repPair ' ' ';' ';' (repPair ' ' ',' ','
      (repPair ' ' ')' ')' (repPair '(' ' ' '(' (collapseWs (stripCommentsL l)))))) :=
    repPair_gen_absorb ';' (by decide) _ hndd3
  have hp4n : noPair ' ' ';' n := by rw [hnz]; exact chain'_goTrim _ hp4d4
  have e1 : collapseWs n = n := collapse_id n hwsn hndn
  have e2 : repPair '(' ' ' '(' n = n := repPair_id _ _ _ n hp1n
  have e3 : repPair ' ' ')' ')' n = n := repPair_id _ _ _ n hp2n
  have e4 : repPair ' ' ',' ',' n = n := repPair_id _ _ _ n hp3n
  have e5 : repPair ' ' ';' ';' n = n := repPair_id _ _ _ n hp4n
  have e6 : goTrimL n = n := by rw [hnz]; exact goTrim_idem _
  show goTrimL (repPair ' ' ';' ';' (repPair ' ' ',' ',' (repPair ' ' ')' ')'
      (repPair '(' ' ' '(' (collapseWs (stripCommentsL n)))))) = n
  rw [h, e1, e2, e3, e4, e5, e6]

theorem lookup_insertReplace (k k' : String) (v : Value) :
    ∀ m : List (String × Value),
      (insertReplace m k v).lookup k' = if k' == k then some v else m.lookup k' := by
  intro m
  induction m with
  | nil =>
    simp only [insertReplace, List.lookup]
    by_cases h : k' == k
    · simp [h]
    · simp [h]
  | cons hd tl ih =>
    obtain ⟨k0, v0⟩ := hd
    simp only [insertReplace]
    by_cases h0 : k0 == k
    · rw [if_pos h0]
      have hk0 : k0 = k := by simpa using h0
      subst hk0
      by_cases h1 : k' == k0
      · simp [List.lookup, h1]
      · simp [List.lookup, h1]
    · rw [if_neg h0]
      by_cases h1 : k' == k0
      · have hk1 : k' = k0 := by simpa using h1
        have h2 : ¬ k' == k := by
          simp only [beq_iff_eq] at h0 ⊢
          rw [hk1]; exact h0
        simp [List.lookup, h1, h2]
      · simp [List.lookup, h1, ih]

theorem foldl_insertReplace_lookup (k : String) :
    ∀ (l : List (String × String)) (m : List (String × Value)),
      (l.foldl (fun m pr => insertReplace m pr.1 (decodeDefault pr.2)) m).lookup k =
        match (l.filter (fun pr => pr.1 == k)).getLast? with
        | some pr => some (decodeDefault pr.2)
        | none => m.lookup k := by
  intro l
  induction l with
  | nil => intro m; simp
  | cons x xs ih =>
    intro m
    rw [List.foldl_cons, ih]
    by_cases hx : x.1 == k
    · rw [@List.filter_cons_of_pos _ (fun pr => pr.1 == k) x xs hx]
      cases hf : xs.filter (fun pr => pr.1 == k) with
      | nil =>
        have hkx : (k == x.1) = true := by
          simp only [beq_iff_eq] at hx ⊢
          exact hx.symm
        simp [lookup_insertReplace, hkx]
      | cons y ys =>
        rw [List.getLast?_cons_cons]
        cases hg : (y :: ys).getLast? with
        | none => exact absurd hg (by simp)
        | some pr => rfl
    · rw [@List.filter_cons_of_neg _ (fun pr => pr.1 == k) x xs hx]
      cases hf : xs.filter (fun pr => pr.1 == k) with
      | nil =>
        have hkx : (k == x.1) = false := by
          simp only [beq_iff_eq] at hx
          simp only [beq_eq_false_iff_ne]
          exact fun he => hx he.symm
        simp [lookup_insertReplace, hkx]
      | cons y ys => rfl

/-! The claim theorems. -/

/-- Claim C1, counterexample: rendering the spec template
`WHERE /*BEGIN*/ /*IF a*/AND a=1/*END*/ /*END*/` against the empty
parameter set yields exactly `WHERE` - the output does contain a `WHERE`
clause, contradicting the claim that the prune pass removes it. -/
theorem prune_dangling_where_counterexample :
    renderNyanSQL "WHERE /*BEGIN*/ /*IF a*/AND a=1/*END*/ /*END*/" [] = some "WHERE" := by
  decide

/-- Claim C1, amended: the prune pass collapses only the BEGIN/END block
itself. With the `WHERE` outside the block (the spec template) the render
is exactly `WHERE`; the dangling `WHERE` is removed only when it sits
inside the block, in which case the render is empty. -/
theorem prune_collapse_amended :
    renderNyanSQL "WHERE /*BEGIN*/ /*IF a*/AND a=1/*END*/ /*END*/" [] = some "WHERE" ∧
    renderNyanSQL "/*BEGIN*/WHERE /*IF a*/AND a=1/*END*/ /*END*/" [] = some "" := by
  exact ⟨by decide, by decide⟩

/-- Claim C2, counterexample: with `params[k]` the Bool `true`, the
predicate `k == 'true'` - whose right side is a quoted string, not a
Bool - evaluates to true, because the Bool case of `eq` falls back to
string-form comparison against a non-Bool right side. -/
theorem eq_bool_quoted_string_counterexample :
    evalCondFlexible "k == \x27true\x27" [("k", Value.bool true)] = some true := by
  decide

/-- Claim C2, amended: in the equality relation, Null equals only Null
(so `k == null` with `k` missing is true), and a Bool compared against a
Bool right side is plain Bool equality; but a Bool compared against a
quoted-string right side falls back to comparing `fmt.Sprintf("%v")`
forms, so e.g. `k == 'true'` with `params[k] = true` is true. -/
theorem eq_null_bool_amended :
    (∀ v : Value, goEq Value.null v = true ↔ v = Value.null) ∧
    (∀ b b' : Bool, goEq (Value.bool b) (Value.bool b') = (b == b')) ∧
    (∀ (b : Bool) (s : String),
      goEq (Value.bool b) (Value.str s) = (goSprintV (Value.bool b) == s.data)) ∧
    evalCondFlexible "k == null" [] = some true := by
  refine ⟨?_, ?_, ?_, by decide⟩
  · intro v; cases v <;> simp [goEq]
  · intro b b'; rfl
  · intro b s; rfl

/-- Claim C3 (code bug): the condition evaluator is not total. When the
right-hand side of a comparison is a single quote character, the quoted
branch fires (`HasPrefix` and `HasSuffix` both see the same character)
and `rhs[1:len(rhs)-1]` is the out-of-bounds slice `rhs[1:0]` - a runtime
panic, modeled as `none`. The panic is reachable from a template. The
spec (and in-code intent: every other malformed input silently yields
false) says no error is ever raised. -/
theorem evalCond_quote_panic :
    evalCondFlexible "k == \x27" [] = none ∧
    renderNyanSQL "/*IF k == \x27*/x/*END*/" [] = none := by
  exact ⟨by decide, by decide⟩

/-- Claim C4 (confirmed): quote-style preservation. A supplied String
value is re-quoted with the default literal's own quote character, with
that character doubled inside: `/*k*/"d"` with `k = a'b` renders
`"a'b"`, `/*k*/'d'` renders `'a''b'`; and `quoteByDefault` does this for
every default whose first char is `"` resp. `'` and every string. -/
theorem quote_style_preservation :
    renderNyanSQL "/*k*/\"d\"" [("k", Value.str "a\x27b")] = some "\"a\x27b\"" ∧
    renderNyanSQL "/*k*/\x27d\x27" [("k", Value.str "a\x27b")] = some "\x27a\x27\x27b\x27" ∧
    (∀ t s : String, quoteByDefault (String.mk ('"' :: t.data)) s =
      String.mk ('"' :: dupChar '"' s.data ++ ['"'])) ∧
    (∀ t s : String, quoteByDefault (String.mk ('\x27' :: t.data)) s =
      String.mk ('\x27' :: dupChar '\x27' s.data ++ ['\x27'])) := by
  refine ⟨by decide, by decide, ?_, ?_⟩
  · intro t s
    simp [quoteByDefault, quoteByDefaultL, List.isPrefixOf]
  · intro t s
    simp [quoteByDefault, quoteByDefaultL, List.isPrefixOf]

/-- Claim C5 (confirmed): default fallback. A placeholder whose parameter
is missing (or nil) is replaced by its own default literal unchanged - at
the replacement function for every name and default, and end to end for
`/*k*/'d'` with an empty parameter set, which renders `'d'`. -/
theorem default_fallback :
    renderNyanSQL "/*k*/\x27d\x27" [] = some "\x27d\x27" ∧
    (∀ (name : String) (defW : List Char), paramRepl [] name defW = defW) ∧
    (∀ (p : Params) (name : String) (defW : List Char),
      paramRepl ((name, Value.null) :: p) name defW = defW) := by
  refine ⟨by decide, ?_, ?_⟩
  · intro name defW; rfl
  · intro p name defW
    simp [paramRepl, List.lookup]

/-- Claim C6 (confirmed): numeric round-trip. The integral float 3.0
supplied for `/*k*/0` renders as the literal `3` with no decimal point;
3.5 renders as `3.5`. -/
theorem numeric_round_trip :
    renderNyanSQL "/*k*/0" [("k", Value.float 3)] = some "3" ∧
    renderNyanSQL "/*k*/0" [("k", Value.float (mkRat 7 2))] = some "3.5" := by
  exact ⟨by decide, by decide⟩

/-- Claim C7 (confirmed): rendering is deterministic. The embedded
renderer is a pure function of the template and the parameter set - it
reads no other state, mirroring the Go code, whose `renderNyanSQL` reads
only its arguments and immutable package-level regexps - so two calls on
identical input produce identical output. -/
theorem render_deterministic (tpl : String) (p : Params) :
    renderNyanSQL tpl p = renderNyanSQL tpl p := rfl

/-- Claim C8, counterexample: normalization is not idempotent. On the
input hyphen, `/*c*/`, hyphen, stripping the block comment splices the
two hyphens into `--`, which a second pass then strips as a line
comment: the first normalization yields `--`, the second yields the
empty string. -/
theorem normalize_not_idempotent_counterexample :
    normalizeForCompare (normalizeForCompare "-/*c*/-") ≠ normalizeForCompare "-/*c*/-" := by
  decide

/-- Claim C8, amended: `normalize(normalize(s)) = normalize(s)` for every
`s` such that comment stripping leaves `normalize(s)` unchanged (comment
stripping can splice surrounding text into a new `--` or `/*` opener,
which is the only way a second pass can differ; see the counterexample). -/
theorem normalize_idempotent_amended (s : String)
    (h : stripComments (normalizeForCompare s) = normalizeForCompare s) :
    normalizeForCompare (normalizeForCompare s) = normalizeForCompare s := by
  have hL : stripCommentsL (normalizeForCompareL s.data) = normalizeForCompareL s.data := by
    have h2 := congrArg String.data h
    simpa [stripComments, normalizeForCompare] using h2
  exact congrArg String.mk (normalizeL_idem s.data hL)

/-- Witness for the amended C8 claim at the concrete input
`SELECT * FROM t;`, whose normalized form is comment-free. -/
theorem normalize_idempotent_amended_witness :
    stripComments (normalizeForCompare "SELECT * FROM t;") =
      normalizeForCompare "SELECT * FROM t;" ∧
    normalizeForCompare (normalizeForCompare "SELECT * FROM t;") =
      normalizeForCompare "SELECT * FROM t;" :=
  ⟨by decide, normalize_idempotent_amended "SELECT * FROM t;" (by decide)⟩

/-- Claim C9 (confirmed): inference completeness. `extractParamDefaults`
over a template with `/*name*/'bob'` and `/*age*/0` yields exactly the
map name ↦ "bob", age ↦ 0 (string and integer typed), and
`findTruthyKeysForVariants` over a template with `/*IF vip*/.../*END*/`
yields exactly the key set {"vip"}. -/
theorem inference_completeness :
    extractParamDefaults "SELECT * FROM t WHERE name = /*name*/\x27bob\x27 AND age = /*age*/0" =
      [("name", Value.str "bob"), ("age", Value.int 0)] ∧
    findTruthyKeysForVariants "SELECT 1 /*IF vip*/x/*END*/" = ["vip"] := by
  exact ⟨by decide, by decide⟩

/-- Claim C10 (confirmed): when a placeholder name occurs several times,
the inferred skeleton maps it to the decoded default of the textually
last matching occurrence - looking up any name in `extractParamDefaults`
yields the decoded default of the last `reParam` match with that name,
for every template. -/
theorem extract_defaults_last_wins (tpl : String) (k : String) :
    (extractParamDefaults tpl).lookup k =
      ((paramMatches tpl).filter (fun pr => pr.1 == k)).getLast?.map
        (fun pr => decodeDefault pr.2) := by
  unfold extractParamDefaults
  rw [foldl_insertReplace_lookup]
  cases ((paramMatches tpl).filter (fun pr => pr.1 == k)).getLast? <;> simp

end Nyan
